import Mathlib

/-!
Verification of the diagnostic reasoning engine of the
Hybrid-Troubleshooting-System repository: a shallow embedding of
`src/knowledge_base.py` (rule store, condition matcher, rule ranker) and
`src/inference_engine.py` (forward chaining, backward chaining, diagnose),
followed by theorems about the embedded functions.
-/

namespace HybridTS

/-- A heterogeneous Python value as the engine handles it: fact values and
condition expected values are booleans or strings (symptom option strings
such as "yes"/"no"/"high" come from the UI; booleans appear in rule
conditions and direct callers). -/
inductive Value where
  | bool (b : Bool)
  | str (s : String)
deriving DecidableEq

/-- Python `==` restricted to these values: a bool and a str are never
equal; same-type values compare structurally. -/
def pyEq : Value → Value → Bool
  | .bool a, .bool b => a == b
  | .str a, .str b => a == b
  | _, _ => false

/-- Python `str(v)` for these values: `str(True) = "True"`,
`str(False) = "False"`, a string is itself. -/
def pyStr : Value → String
  | .bool true => "True"
  | .bool false => "False"
  | .str s => s

/-- Python `s.lower()` (ASCII case folding, which is all the engine's
token sets and rule text need). -/
def pyLower (s : String) : String := String.mk (s.data.map Char.toLower)

/-- Python `s.replace(p, r)` for the single-character pattern uses in the
engine (`category.replace('_', ' ')` and `cond.replace('_', ' ')`). -/
def pyReplaceChar (s : String) (p r : Char) : String :=
  String.mk (s.data.map (fun c => if c == p then r else c))

/-- Python `needle in haystack` on strings: substring containment. -/
def pySubstr (needle haystack : String) : Bool :=
  decide (needle.toList <:+: haystack.toList)

/-- A working-memory / user-symptom mapping: a Python dict in insertion
order with unique keys, read through `List.lookup`. -/
abbrev Facts := List (String × Value)

/-- Python `d[k] = v` on a dict: replace the value in place when the key
exists, else append the new pair. -/
def dictSet (wm : Facts) (k : String) (v : Value) : Facts :=
  if (wm.lookup k).isSome then
    wm.map (fun p => if p.1 == k then (k, v) else p)
  else
    wm ++ [(k, v)]

/-- A rule record as loaded from the JSON source. Fields the code reads
with `rule.get(..., default)` are `Option`s (or default-valued lists);
`id` is read with `rule["id"]` and is present on every catalog rule. -/
structure Rule where
  id : String
  category : Option String
  conditions : List (String × Value)
  cause : Option String
  causeAr : Option String
  solutions : List String
  solutionsAr : Option (List String)
  confidence : Option ℚ
deriving DecidableEq

/-- `KnowledgeBase`: the two device-partitioned rule lists plus their
concatenation. -/
structure KnowledgeBase where
  computerRules : List Rule
  mobileRules : List Rule
  allRules : List Rule
deriving DecidableEq

/-- `KnowledgeBase._load_rules`, over the already-parsed sources: each
device's source file, when present, contributes the list under its
"rules" key as-is (`data.get("rules", [])`), with no per-record
validation; a missing file leaves that device's list empty; `all_rules`
is the concatenation. -/
def loadRules (computerSrc mobileSrc : Option (List Rule)) : KnowledgeBase :=
  { computerRules := computerSrc.getD []
    mobileRules := mobileSrc.getD []
    allRules := computerSrc.getD [] ++ mobileSrc.getD [] }

/-- `KnowledgeBase.get_rules_by_device`: "computer" and "mobile"
(case-insensitively) select their partition; any other string falls back
to the full combined list. -/
def getRulesByDevice (kb : KnowledgeBase) (deviceType : String) : List Rule :=
  if pyLower deviceType == "computer" then kb.computerRules
  else if pyLower deviceType == "mobile" then kb.mobileRules
  else kb.allRules

/-- `KnowledgeBase.get_rules_by_category`: optionally device-filtered
rules whose `category` field equals the argument (a rule with no
category field never matches). -/
def getRulesByCategory (kb : KnowledgeBase) (category : String)
    (deviceType : Option String) : List Rule :=
  let rules := match deviceType with
    | some dt => getRulesByDevice kb dt
    | none => kb.allRules
  rules.filter (fun r => r.category == some category)

/-- The type-driven comparison inside `KnowledgeBase.match_conditions`,
dispatching on the expected value's type: a boolean expected value is
compared by direct equality (`user_value == expected_value`); a string
expected value case-insensitively against `str(user_value).lower()`. -/
def kbValueMatch (expected userValue : Value) : Bool :=
  match expected with
  | .bool _ => pyEq userValue expected
  | .str s => pyLower (pyStr userValue) == pyLower s

/-- Whether one condition `(key, expected)` counts as matched against the
user symptoms in `match_conditions`: an absent key is unmatched; a
present key is compared with `kbValueMatch`. -/
def condMatched (userSymptoms : Facts) (c : String × Value) : Bool :=
  match userSymptoms.lookup c.1 with
  | some v => kbValueMatch c.2 v
  | none => false

/-- The result triple of `KnowledgeBase.match_conditions`. -/
structure MatchResult where
  score : ℚ
  matched : List String
  unmatched : List String
deriving DecidableEq

/-- `KnowledgeBase.match_conditions`: walk the rule's conditions in
order, sending each key to `matched` or `unmatched`; the score is
`|matched| / |conditions|`, with an empty conditions mapping scored 0. -/
def matchConditions (rule : Rule) (userSymptoms : Facts) : MatchResult :=
  let conds := rule.conditions
  let matched := (conds.filter (fun c => condMatched userSymptoms c)).map (fun c => c.1)
  let unmatched := (conds.filter (fun c => !condMatched userSymptoms c)).map (fun c => c.1)
  { score := if conds.length = 0 then 0 else (matched.length : ℚ) / (conds.length : ℚ)
    matched := matched
    unmatched := unmatched }

/-- One entry of `find_matching_rules`' result list. -/
structure MatchEntry where
  rule : Rule
  matchScore : ℚ
  matchedConditions : List String
  unmatchedConditions : List String
deriving DecidableEq

/-- The entry `find_matching_rules` builds for one rule. -/
def toMatchEntry (userSymptoms : Facts) (r : Rule) : MatchEntry :=
  let m := matchConditions r userSymptoms
  { rule := r
    matchScore := m.score
    matchedConditions := m.matched
    unmatchedConditions := m.unmatched }

/-- The candidate pool of `find_matching_rules`: category filter first
(optionally device-scoped), else device filter, else the full catalog. -/
def candidateRules (kb : KnowledgeBase) (deviceType category : Option String) :
    List Rule :=
  match category with
  | some c => getRulesByCategory kb c deviceType
  | none =>
    match deviceType with
    | some dt => getRulesByDevice kb dt
    | none => kb.allRules

/-- The threshold-filtered, still catalog-ordered match list of
`find_matching_rules`, before its final sort. -/
def preMatches (kb : KnowledgeBase) (userSymptoms : Facts)
    (deviceType category : Option String) (minMatchScore : ℚ) : List MatchEntry :=
  ((candidateRules kb deviceType category).map (toMatchEntry userSymptoms)).filter
    (fun m => decide (minMatchScore ≤ m.matchScore))

/-- The comparison under Python's stable
`matches.sort(key=lambda x: (match_score, confidence-or-0), reverse=True)`:
entry `a` may precede entry `b` when `b`'s key is lexicographically at
most `a`'s, with a missing confidence read as 0. -/
def rankRel (a b : MatchEntry) : Prop :=
  b.matchScore < a.matchScore ∨
    (b.matchScore = a.matchScore ∧
      b.rule.confidence.getD 0 ≤ a.rule.confidence.getD 0)

instance : DecidableRel rankRel := fun a b => by
  unfold rankRel; infer_instance

instance : IsTotal MatchEntry rankRel where
  total a b := by
    unfold rankRel
    rcases lt_trichotomy a.matchScore b.matchScore with h | h | h
    · exact Or.inr (Or.inl h)
    · rcases le_total (b.rule.confidence.getD 0) (a.rule.confidence.getD 0) with hc | hc
      · exact Or.inl (Or.inr ⟨h.symm, hc⟩)
      · exact Or.inr (Or.inr ⟨h, hc⟩)
    · exact Or.inl (Or.inl h)

instance : IsTrans MatchEntry rankRel where
  trans a b c hab hbc := by
    unfold rankRel at hab hbc ⊢
    rcases hab with h1 | ⟨h1, h1c⟩
    · rcases hbc with h2 | ⟨h2, _⟩
      · exact Or.inl (h2.trans h1)
      · exact Or.inl (h2 ▸ h1)
    · rcases hbc with h2 | ⟨h2, h2c⟩
      · exact Or.inl (h1 ▸ h2)
      · exact Or.inr ⟨h2.trans h1, h2c.trans h1c⟩

/-- `KnowledgeBase.find_matching_rules`: score the candidate pool, keep
entries with score at least `min_match_score`, and stable-sort them by
(match score, confidence-or-0) descending (Python's `list.sort` is a
stable sort; the embedding realises it as the stable insertion sort). -/
def findMatchingRules (kb : KnowledgeBase) (userSymptoms : Facts)
    (deviceType category : Option String) (minMatchScore : ℚ) : List MatchEntry :=
  (preMatches kb userSymptoms deviceType category minMatchScore).insertionSort rankRel

/-- `InferenceEngine` state: the injected knowledge base plus the three
per-session mutable fields. -/
structure Engine where
  kb : KnowledgeBase
  workingMemory : Facts
  inferenceTrace : List String
  firedRules : List Rule

/-- A fresh engine over a knowledge base (`InferenceEngine.__init__`). -/
def Engine.init (kb : KnowledgeBase) : Engine :=
  { kb := kb, workingMemory := [], inferenceTrace := [], firedRules := [] }

/-- `InferenceEngine.reset`: clear working memory, trace and fired rules. -/
def Engine.reset (e : Engine) : Engine :=
  { e with workingMemory := [], inferenceTrace := [], firedRules := [] }

/-- `InferenceEngine.add_fact`: store the fact and append a trace line. -/
def Engine.addFact (e : Engine) (k : String) (v : Value) : Engine :=
  { e with
    workingMemory := dictSet e.workingMemory k v
    inferenceTrace := e.inferenceTrace ++ ["Added fact: " ++ k ++ " = " ++ pyStr v] }

/-- `InferenceEngine.add_facts`: add the facts in iteration order. -/
def Engine.addFacts (e : Engine) (facts : Facts) : Engine :=
  facts.foldl (fun e p => e.addFact p.1 p.2) e

/-- `InferenceEngine._values_match`, the type-flexible comparison used by
backward chaining: a boolean expected value accepts a string fact value
through the affirmative tokens "yes"/"true"/"1" (when expecting true) or
the negative tokens "no"/"false"/"0" (when expecting false); a string
expected value compares case-insensitively; anything else is direct
equality. -/
def valuesMatch (actual expected : Value) : Bool :=
  match expected with
  | .bool b =>
    match actual with
    | .str s =>
      if b then ["yes", "true", "1"].contains (pyLower s)
      else ["no", "false", "0"].contains (pyLower s)
    | _ => pyEq actual expected
  | .str s => pyLower (pyStr actual) == pyLower s

/-- The fired-rule confidence of `forward_chain`:
`rule.get("confidence", 0.8)`. -/
def fireConfidence (r : Rule) : ℚ := r.confidence.getD (4/5)

/-- Whether `forward_chain` fires a surviving match: its combined
confidence (match score times rule confidence) reaches `min_confidence`. -/
def firesAt (minConfidence : ℚ) (m : MatchEntry) : Bool :=
  decide (minConfidence ≤ m.matchScore * fireConfidence m.rule)

/-- `InferenceEngine._generate_explanation`: render each matched key's
current working-memory value as a clause and join them into a sentence
naming the rule's cause; with no matched conditions, emit the generic
"potential issue" sentence. -/
def generateExplanation (wm : Facts) (rule : Rule)
    (matchedConditions : List String) : String :=
  let conditionsText := matchedConditions.map (fun cond =>
    let v := match wm.lookup cond with
      | some v => pyStr v
      | none => "unknown"
    pyReplaceChar cond '_' ' ' ++ " = " ++ v)
  if conditionsText.isEmpty then
    "The system identified a potential issue: " ++ rule.cause.getD "unknown" ++ "."
  else
    "The system concluded '" ++ rule.cause.getD "this issue" ++
      "' because the following conditions were met: " ++
      String.intercalate ", " conditionsText ++ "."

/-- One diagnosis dict built by `forward_chain` for a fired rule. -/
structure Diagnosis where
  ruleId : String
  category : String
  cause : String
  causeAr : String
  solutions : List String
  solutionsAr : List String
  confidence : ℚ
  matchedConditions : List String
  explanation : String
deriving DecidableEq

/-- The diagnosis `forward_chain` builds for one fired match: localized
fields fall back to their base-language counterparts, and the carried
confidence is the match score times the rule confidence. -/
def mkDiagnosis (wm : Facts) (m : MatchEntry) : Diagnosis :=
  { ruleId := m.rule.id
    category := m.rule.category.getD "unknown"
    cause := m.rule.cause.getD "Unknown cause"
    causeAr := m.rule.causeAr.getD (m.rule.cause.getD "Unknown cause")
    solutions := m.rule.solutions
    solutionsAr := m.rule.solutionsAr.getD m.rule.solutions
    confidence := m.matchScore * fireConfidence m.rule
    matchedConditions := m.matchedConditions
    explanation := generateExplanation wm m.rule m.matchedConditions }

/-- The trace line for one fired rule ("Fired rule: id (confidence: c)");
the numeric rendering of the confidence is kept abstract as its exact
digits play no role in any claim. -/
def firedMsg (id : String) (c : ℚ) : String :=
  "Fired rule: " ++ id ++ " (confidence: " ++ toString c.num ++ "/" ++
    toString c.den ++ ")"

/-- `InferenceEngine.forward_chain`: rank the rules for the scope with
`find_matching_rules` at admission threshold `min_confidence`, then fire
exactly those surviving matches whose combined confidence also reaches
`min_confidence`, recording fired rules and trace lines in order and
returning the diagnoses in ranked order. -/
def Engine.forwardChain (e : Engine) (deviceType category : Option String)
    (minConfidence : ℚ) : Engine × List Diagnosis :=
  let ranked := findMatchingRules e.kb e.workingMemory deviceType category minConfidence
  let fired := ranked.filter (firesAt minConfidence)
  let diagnoses := fired.map (mkDiagnosis e.workingMemory)
  ({ e with
      firedRules := e.firedRules ++ fired.map (fun m => m.rule)
      inferenceTrace := e.inferenceTrace ++ ["Starting Forward Chaining..."] ++
        fired.map (fun m => firedMsg m.rule.id (m.matchScore * fireConfidence m.rule)) ++
        ["Forward chaining complete. Found " ++ toString diagnoses.length ++ " diagnoses."] },
   diagnoses)

/-- The rules supporting a hypothesis in `backward_chain`: those whose
cause text contains the hypothesis as a case-insensitive substring (a
rule without a cause field reads as the empty cause). -/
def supportingRules (kb : KnowledgeBase) (hypothesis : String)
    (deviceType : Option String) : List Rule :=
  let rules := match deviceType with
    | some dt => getRulesByDevice kb dt
    | none => kb.allRules
  rules.filter (fun r => pySubstr (pyLower hypothesis) (pyLower (r.cause.getD "")))

/-- The required-facts messages `backward_chain` accumulates for one
rule: one line per unsatisfied condition, distinguishing a
known-but-wrong value from an entirely unknown fact. -/
def requiredFactsFor (wm : Facts) (rule : Rule) : List String :=
  rule.conditions.filterMap (fun c =>
    match wm.lookup c.1 with
    | some av =>
      if valuesMatch av c.2 then none
      else some (c.1 ++ " should be " ++ pyStr c.2)
    | none => some ("Need to know: " ++ c.1))

/-- Whether every condition of a rule is satisfied by working memory
(the loop's `all_satisfied` flag: no required-facts message). -/
def ruleSatisfied (wm : Facts) (rule : Rule) : Bool :=
  (requiredFactsFor wm rule).isEmpty

/-- The trace line for an unsatisfied supporting rule. -/
def bcNeedsMsg (wm : Facts) (r : Rule) : String :=
  "Rule " ++ r.id ++ " needs: " ++ String.intercalate ", " (requiredFactsFor wm r)

/-- The trace line for a proven hypothesis. -/
def bcProvenMsg (r : Rule) : String :=
  "Hypothesis PROVEN by rule: " ++ r.id

/-- The loop of `backward_chain` over the supporting rules, threading
the `required_facts` of the most recently examined rule: stop with
`(true, [])` at the first fully satisfied rule; fall off the end with
`(false, last required_facts)`. Also returns the trace lines appended. -/
def bcLoop (wm : Facts) : List Rule → List String → List String × (Bool × List String)
  | [], lastRequired => ([], (false, lastRequired))
  | r :: rest, _ =>
    if (requiredFactsFor wm r).isEmpty then ([bcProvenMsg r], (true, []))
    else
      (bcNeedsMsg wm r :: (bcLoop wm rest (requiredFactsFor wm r)).1,
       (bcLoop wm rest (requiredFactsFor wm r)).2)

/-- `InferenceEngine.backward_chain`: find the supporting rules; with
none, report not-provable with no required facts; otherwise run the
loop. -/
def Engine.backwardChain (e : Engine) (hypothesis : String)
    (deviceType : Option String) : Engine × (Bool × List String) :=
  if (supportingRules e.kb hypothesis deviceType).isEmpty then
    ({ e with inferenceTrace := e.inferenceTrace ++
        ["Starting Backward Chaining for hypothesis: " ++ hypothesis] ++
        ["No rules found that support hypothesis: " ++ hypothesis] },
     (false, []))
  else
    ({ e with inferenceTrace := e.inferenceTrace ++
        ["Starting Backward Chaining for hypothesis: " ++ hypothesis] ++
        (bcLoop e.workingMemory (supportingRules e.kb hypothesis deviceType) []).1 },
     (bcLoop e.workingMemory (supportingRules e.kb hypothesis deviceType) []).2)

/-- `InferenceEngine._get_general_solutions`: the static per-category
generic remediation lists, with a default list for any other category
(the device type argument is accepted but unused, as in the source). -/
def getGeneralSolutions (category : String) (deviceType : String) : List String :=
  let _ := deviceType
  if category == "overheating" then
    ["Ensure proper ventilation around the device",
     "Clean dust from vents and fans",
     "Avoid using in direct sunlight or hot environments",
     "Consider replacing thermal paste (for computers)"]
  else if category == "slow_performance" then
    ["Close unused applications",
     "Restart the device",
     "Check for available updates",
     "Free up storage space",
     "Scan for malware"]
  else if category == "battery_issues" then
    ["Check battery health in settings",
     "Reduce screen brightness",
     "Close background applications",
     "Use original charger",
     "Consider battery replacement if old"]
  else if category == "network_issues" then
    ["Toggle airplane mode on and off",
     "Restart the router/modem",
     "Forget and reconnect to network",
     "Update network drivers",
     "Check for service outages"]
  else if category == "startup_failure" then
    ["Perform a hard reset",
     "Check power connections",
     "Try booting in safe mode",
     "Check for recent hardware changes"]
  else if category == "screen_problems" then
    ["Restart the device",
     "Check display connections",
     "Adjust display settings",
     "Update display drivers"]
  else if category == "storage_issues" then
    ["Delete unnecessary files",
     "Clear app caches",
     "Move files to cloud storage",
     "Check for disk errors"]
  else if category == "audio_problems" then
    ["Check volume settings",
     "Ensure correct output device is selected",
     "Update audio drivers",
     "Test with different audio source"]
  else if category == "app_crashes" then
    ["Update the application",
     "Clear app cache and data",
     "Reinstall the application",
     "Check for system updates"]
  else if category == "hardware_failure" then
    ["Restart the device",
     "Check all connections",
     "Run hardware diagnostics",
     "Consult a professional technician"]
  else
    ["Restart the device and try again", "Consult technical support"]

/-- The result dict of `InferenceEngine.diagnose`: `causeAr` and
`solutionsAr` are `Option`s because the fallback branch's diagnosis dict
carries no such keys. -/
structure DiagnosisResult where
  success : Bool
  cause : String
  causeAr : Option String
  category : String
  confidence : ℚ
  solutions : List String
  solutionsAr : Option (List String)
  explanation : String
  ruleId : Option String
  alternativeDiagnoses : List Diagnosis
  inferenceTrace : List String
deriving DecidableEq

/-- `InferenceEngine.diagnose`: reset the session, add the device fact
and the symptoms, forward-chain at threshold 0.3; return the ranked best
diagnosis with up to two alternatives, or the fallback diagnosis
(success false, rule id null, confidence 0.5, category-derived cause and
generic solutions) when nothing fired. -/
def Engine.diagnose (e : Engine) (deviceType category : String)
    (symptoms : Facts) : Engine × DiagnosisResult :=
  let e := e.reset
  let e := e.addFact "device" (.str deviceType)
  let e := e.addFacts symptoms
  let (e, diagnoses) := e.forwardChain (some deviceType) (some category) (3/10)
  match diagnoses with
  | best :: rest =>
    (e, { success := true
          cause := best.cause
          causeAr := some best.causeAr
          category := best.category
          confidence := best.confidence
          solutions := best.solutions
          solutionsAr := some best.solutionsAr
          explanation := best.explanation
          ruleId := some best.ruleId
          alternativeDiagnoses := rest.take 2
          inferenceTrace := e.inferenceTrace })
  | [] =>
    (e, { success := false
          cause := "General " ++ pyReplaceChar category '_' ' ' ++ " issue"
          causeAr := none
          category := category
          confidence := 1/2
          solutions := getGeneralSolutions category deviceType
          solutionsAr := none
          explanation := "Based on the symptoms provided, this appears to be a " ++
            pyReplaceChar category '_' ' ' ++
            " problem. Consider the general troubleshooting steps recommended."
          ruleId := none
          alternativeDiagnoses := []
          inferenceTrace := e.inferenceTrace })

/-! ## Basic unfolding lemmas -/

theorem matchConditions_matched (rule : Rule) (facts : Facts) :
    (matchConditions rule facts).matched =
      (rule.conditions.filter (fun c => condMatched facts c)).map (fun c => c.1) := rfl

theorem matchConditions_unmatched (rule : Rule) (facts : Facts) :
    (matchConditions rule facts).unmatched =
      (rule.conditions.filter (fun c => !condMatched facts c)).map (fun c => c.1) := rfl

theorem matchConditions_score (rule : Rule) (facts : Facts) :
    (matchConditions rule facts).score =
      if rule.conditions.length = 0 then 0
      else ((matchConditions rule facts).matched.length : ℚ) / (rule.conditions.length : ℚ) := rfl

/-! ## Claims -/

/-- The catalog rule of several concrete checks: one boolean condition,
as the rules of the shipped catalog are authored. -/
def hotSurfaceRule : Rule :=
  { id := "COMP_HEAT_X"
    category := some "overheating"
    conditions := [("hot_surface", Value.bool true)]
    cause := some "Dust accumulation"
    causeAr := none
    solutions := ["Clean dust from vents and fans"]
    solutionsAr := none
    confidence := some (9/10) }

/-- C1: in `KnowledgeBase.match_conditions` a boolean expected value is
compared to a string fact value by direct equality, which is always
false in Python, so the fact value "yes" lands in `unmatched` (the claim
says the affirmative-token mapping makes it matched); the token mapping
the claim describes exists only in `InferenceEngine._values_match`,
where "yes" does match `true` and "maybe" does not. -/
theorem c1_match_conditions_lacks_token_mapping :
    (matchConditions hotSurfaceRule [("hot_surface", Value.str "yes")]).matched = [] ∧
    (matchConditions hotSurfaceRule [("hot_surface", Value.str "yes")]).unmatched =
      ["hot_surface"] ∧
    kbValueMatch (Value.bool true) (Value.str "yes") = false ∧
    valuesMatch (Value.str "yes") (Value.bool true) = true ∧
    valuesMatch (Value.str "maybe") (Value.bool true) = false := by
  decide

/-- A rule record missing every required field the spec lists except the
id: no category, no conditions, no cause, no solutions, no confidence. -/
def bareRule : Rule :=
  { id := "r_bare"
    category := none
    conditions := []
    cause := none
    causeAr := none
    solutions := []
    solutionsAr := none
    confidence := none }

/-- C7 counterexample: loading a source whose rule record is missing the
required fields does not fail; the malformed record is loaded into the
catalog as-is. -/
theorem c7_counterexample_load_accepts_malformed :
    (loadRules (some [bareRule]) none).computerRules = [bareRule] ∧
    (loadRules (some [bareRule]) none).allRules = [bareRule] := by
  decide

/-- C7 (amended): the load step performs no validation and cannot fail:
whatever rule list each present source carries is loaded as-is (a
missing source leaves that device's list empty), and the combined
catalog is their concatenation — a best-effort catalog, with no
`DataLoadError` anywhere in the code. -/
theorem c7_load_is_total_best_effort (computerSrc mobileSrc : Option (List Rule)) :
    (loadRules computerSrc mobileSrc).computerRules = computerSrc.getD [] ∧
    (loadRules computerSrc mobileSrc).mobileRules = mobileSrc.getD [] ∧
    (loadRules computerSrc mobileSrc).allRules =
      computerSrc.getD [] ++ mobileSrc.getD [] :=
  ⟨rfl, rfl, rfl⟩

/-! ## Helper lemmas -/

theorem lookup_append_of_some {l₁ l₂ : Facts} {a : String} {v : Value}
    (h : l₁.lookup a = some v) : (l₁ ++ l₂).lookup a = some v := by
  induction l₁ with
  | nil => simp [List.lookup] at h
  | cons p l ih =>
    cases p with
    | mk b w =>
      rw [List.cons_append]
      cases hb : a == b with
      | true =>
        simp only [List.lookup, hb] at h ⊢
        exact h
      | false =>
        simp only [List.lookup, hb] at h ⊢
        exact ih h

theorem lookup_append_of_none {l₁ l₂ : Facts} {a : String}
    (h : l₁.lookup a = none) : (l₁ ++ l₂).lookup a = l₂.lookup a := by
  induction l₁ with
  | nil => simp
  | cons p l ih =>
    cases p with
    | mk b w =>
      rw [List.cons_append]
      cases hb : a == b with
      | true =>
        simp only [List.lookup, hb] at h
        exact absurd h (by simp)
      | false =>
        simp only [List.lookup, hb] at h ⊢
        exact ih h

theorem length_filter_le_of_imp {α : Type} (l : List α) (p q : α → Bool)
    (h : ∀ a ∈ l, p a = true → q a = true) :
    (l.filter p).length ≤ (l.filter q).length := by
  induction l with
  | nil => simp
  | cons a l ih =>
    have ih' := ih (fun b hb => h b (List.mem_cons_of_mem a hb))
    by_cases hp : p a = true
    · have hq := h a (List.mem_cons_self a l) hp
      simp only [List.filter_cons, hp, hq, if_true, List.length_cons]
      omega
    · simp only [List.filter_cons]
      rw [Bool.not_eq_true] at hp
      rw [hp]
      cases hq : q a <;> simp <;> omega

/-- C4: for every rule and fact set, the match score is within `[0, 1]`,
equal to 0 exactly on an empty conditions mapping and otherwise to
`|matched| / |conditions|`, and (with the dict-unique condition keys)
every condition key lands in exactly one of `matched` and `unmatched`. -/
theorem c4_match_score_bounds_and_partition (rule : Rule) (facts : Facts)
    (hnd : (rule.conditions.map Prod.fst).Nodup) :
    0 ≤ (matchConditions rule facts).score ∧
    (matchConditions rule facts).score ≤ 1 ∧
    (rule.conditions = [] → (matchConditions rule facts).score = 0) ∧
    (rule.conditions ≠ [] →
      (matchConditions rule facts).score =
        ((matchConditions rule facts).matched.length : ℚ) / (rule.conditions.length : ℚ)) ∧
    (∀ k ∈ rule.conditions.map Prod.fst,
      (k ∈ (matchConditions rule facts).matched ∧
        k ∉ (matchConditions rule facts).unmatched) ∨
      (k ∈ (matchConditions rule facts).unmatched ∧
        k ∉ (matchConditions rule facts).matched)) := by
  have hm := matchConditions_matched rule facts
  have hu := matchConditions_unmatched rule facts
  have hs := matchConditions_score rule facts
  have hlen : (matchConditions rule facts).matched.length ≤ rule.conditions.length := by
    rw [hm, List.length_map]
    exact List.length_filter_le _ _
  refine ⟨?_, ?_, ?_, ?_, ?_⟩
  · rw [hs]
    split
    · exact le_refl 0
    · positivity
  · rw [hs]
    split
    · exact zero_le_one
    · rename_i hz
      refine div_le_one_of_le₀ ?_ (by positivity)
      exact_mod_cast hlen
  · intro h
    rw [hs, if_pos (by simp [h])]
  · intro h
    rw [hs, if_neg (by simpa [List.length_eq_zero] using h)]
  · intro k hk
    obtain ⟨c, hc, hck⟩ := List.mem_map.mp hk
    by_cases hp : condMatched facts c = true
    · left
      constructor
      · rw [hm]
        exact List.mem_map.mpr ⟨c, List.mem_filter.mpr ⟨hc, hp⟩, hck⟩
      · rw [hu]
        intro hmem
        obtain ⟨c', hc', hck'⟩ := List.mem_map.mp hmem
        have hc'2 := List.mem_filter.mp hc'
        have heq : c' = c :=
          List.inj_on_of_nodup_map hnd hc'2.1 hc (hck'.trans hck.symm)
        rw [heq, hp] at hc'2
        simp at hc'2
    · right
      constructor
      · rw [hu]
        refine List.mem_map.mpr ⟨c, List.mem_filter.mpr ⟨hc, ?_⟩, hck⟩
        simp [Bool.not_eq_true] at hp ⊢
        exact hp
      · rw [hm]
        intro hmem
        obtain ⟨c', hc', hck'⟩ := List.mem_map.mp hmem
        have hc'2 := List.mem_filter.mp hc'
        have heq : c' = c :=
          List.inj_on_of_nodup_map hnd hc'2.1 hc (hck'.trans hck.symm)
        rw [heq] at hc'2
        exact hp hc'2.2

/-- C4 witness: the bounds and the partition at a concrete rule and
fact set. -/
theorem c4_witness :
    0 ≤ (matchConditions hotSurfaceRule []).score ∧
    (matchConditions hotSurfaceRule []).score ≤ 1 ∧
    (hotSurfaceRule.conditions = [] → (matchConditions hotSurfaceRule []).score = 0) ∧
    (hotSurfaceRule.conditions ≠ [] →
      (matchConditions hotSurfaceRule []).score =
        ((matchConditions hotSurfaceRule []).matched.length : ℚ) /
          (hotSurfaceRule.conditions.length : ℚ)) ∧
    (∀ k ∈ hotSurfaceRule.conditions.map Prod.fst,
      (k ∈ (matchConditions hotSurfaceRule []).matched ∧
        k ∉ (matchConditions hotSurfaceRule []).unmatched) ∨
      (k ∈ (matchConditions hotSurfaceRule []).unmatched ∧
        k ∉ (matchConditions hotSurfaceRule []).matched)) :=
  c4_match_score_bounds_and_partition hotSurfaceRule [] (by decide)

/-- C8: extending a fact set with a fact for a previously absent
condition key whose value satisfies the rule's expected value for that
key never decreases the rule's match score. -/
theorem c8_adding_matching_fact_monotone (rule : Rule) (facts : Facts)
    (k : String) (v : Value)
    (habs : facts.lookup k = none)
    (hmatch : ∀ c ∈ rule.conditions, c.1 = k → kbValueMatch c.2 v = true) :
    (matchConditions rule facts).score ≤ (matchConditions rule (dictSet facts k v)).score ∧
    (∀ c ∈ rule.conditions, c.1 = k → condMatched (dictSet facts k v) c = true) := by
  have hset : dictSet facts k v = facts ++ [(k, v)] := by
    simp [dictSet, habs]
  rw [hset]
  refine ⟨?_, ?_⟩
  case refine_2 =>
    intro c hc hck
    unfold condMatched
    rw [hck, lookup_append_of_none habs]
    simp only [List.lookup, beq_self_eq_true]
    exact hmatch c hc hck
  have hmono : ∀ c ∈ rule.conditions,
      condMatched facts c = true → condMatched (facts ++ [(k, v)]) c = true := by
    intro c _ hc
    unfold condMatched at hc ⊢
    cases hl : facts.lookup c.1 with
    | none => rw [hl] at hc; exact absurd hc (by simp)
    | some u =>
      rw [hl] at hc
      rw [lookup_append_of_some hl]
      exact hc
  rw [matchConditions_score, matchConditions_score]
  split
  · exact le_refl 0
  · rw [matchConditions_matched, matchConditions_matched]
    simp only [List.length_map]
    gcongr
    exact_mod_cast length_filter_le_of_imp rule.conditions _ _ hmono

/-- C8 witness: the monotonicity instance at a concrete rule, empty
facts, and the matching fact for the absent key. -/
theorem c8_witness :
    (matchConditions hotSurfaceRule []).score ≤
      (matchConditions hotSurfaceRule (dictSet [] "hot_surface" (Value.bool true))).score ∧
    (∀ c ∈ hotSurfaceRule.conditions, c.1 = "hot_surface" →
      condMatched (dictSet [] "hot_surface" (Value.bool true)) c = true) :=
  c8_adding_matching_fact_monotone hotSurfaceRule [] "hot_surface" (Value.bool true)
    (by decide) (by decide)

/-! ## Engine state lemmas -/

theorem addFacts_kb (e : Engine) (l : Facts) : (e.addFacts l).kb = e.kb := by
  induction l generalizing e with
  | nil => rfl
  | cons p l ih => exact ih (e.addFact p.1 p.2)

theorem addFacts_wm (e : Engine) (l : Facts) :
    (e.addFacts l).workingMemory =
      l.foldl (fun wm p => dictSet wm p.1 p.2) e.workingMemory := by
  induction l generalizing e with
  | nil => rfl
  | cons p l ih => exact ih (e.addFact p.1 p.2)

/-- The working memory `diagnose` builds before forward chaining: the
device fact followed by the caller's symptoms in iteration order. -/
def diagnoseWM (deviceType : String) (symptoms : Facts) : Facts :=
  symptoms.foldl (fun wm p => dictSet wm p.1 p.2)
    (dictSet [] "device" (Value.str deviceType))

theorem setup_wm (e : Engine) (dt : String) (sym : Facts) :
    ((e.reset.addFact "device" (Value.str dt)).addFacts sym).workingMemory =
      diagnoseWM dt sym := by
  rw [addFacts_wm]
  rfl

theorem setup_kb (e : Engine) (dt : String) (sym : Facts) :
    ((e.reset.addFact "device" (Value.str dt)).addFacts sym).kb = e.kb := by
  rw [addFacts_kb]
  rfl

theorem forwardChain_fst_kb (e : Engine) (dt cat : Option String) (θ : ℚ) :
    (e.forwardChain dt cat θ).1.kb = e.kb := rfl

theorem getGeneralSolutions_ne_nil (category deviceType : String) :
    getGeneralSolutions category deviceType ≠ [] := by
  unfold getGeneralSolutions
  repeat' split
  all_goals simp

/-- Diagnosing on any engine equals diagnosing on a fresh engine over
the same knowledge base: the initial reset discards every piece of
per-session state. -/
theorem diagnose_eq_init (e : Engine) (dt cat : String) (sym : Facts) :
    e.diagnose dt cat sym = (Engine.init e.kb).diagnose dt cat sym := rfl

theorem diagnose_fst_kb (e : Engine) (dt cat : String) (sym : Facts) :
    (e.diagnose dt cat sym).1.kb = e.kb := by
  unfold Engine.diagnose
  rcases hfc : ((e.reset.addFact "device" (Value.str dt)).addFacts sym).forwardChain
      (some dt) (some cat) (3/10) with ⟨e4, ds⟩
  have hkb : e4.kb = e.kb := by
    have := forwardChain_fst_kb ((e.reset.addFact "device" (Value.str dt)).addFacts sym)
      (some dt) (some cat) (3/10)
    rw [hfc] at this
    exact this.trans (setup_kb e dt sym)
  simp only [hfc]
  cases ds <;> simpa using hkb

/-- C9: two consecutive `diagnose` calls with identical arguments yield
identical `DiagnosisResult` values (trace included): the call resets
working memory, trace and fired rules, so its outcome depends only on
the knowledge base, which it never mutates. -/
theorem c9_diagnose_repeat_identical (e : Engine) (dt cat : String) (sym : Facts) :
    e.diagnose dt cat sym = (Engine.init e.kb).diagnose dt cat sym ∧
    ((e.diagnose dt cat sym).1.diagnose dt cat sym).2 = (e.diagnose dt cat sym).2 := by
  refine ⟨diagnose_eq_init e dt cat sym, ?_⟩
  calc ((e.diagnose dt cat sym).1.diagnose dt cat sym).2
      = ((Engine.init (e.diagnose dt cat sym).1.kb).diagnose dt cat sym).2 := by
        rw [← diagnose_eq_init]
    _ = ((Engine.init e.kb).diagnose dt cat sym).2 := by
        rw [diagnose_fst_kb]
    _ = (e.diagnose dt cat sym).2 := by
        rw [← diagnose_eq_init]

/-- No rule of the scope clears the combined-confidence bar, so nothing
fires. -/
theorem forwardChain_diagnoses_nil (e : Engine) (dt cat : Option String) (θ : ℚ)
    (h : ∀ r ∈ candidateRules e.kb dt cat,
      ¬ θ ≤ (matchConditions r e.workingMemory).score * fireConfidence r) :
    (e.forwardChain dt cat θ).2 = [] := by
  unfold Engine.forwardChain
  simp only [List.map_eq_nil_iff, List.filter_eq_nil_iff]
  intro m hm
  rw [findMatchingRules, List.mem_insertionSort, preMatches, List.mem_filter,
    List.mem_map] at hm
  obtain ⟨⟨r, hr, rfl⟩, _⟩ := hm
  simp only [firesAt, decide_eq_true_eq]
  exact h r hr

/-- C3: when no scoped rule reaches combined confidence 0.3 against the
memory `diagnose` builds, `diagnose` falls back: success false, null
rule id, confidence exactly 0.5, cause text derived from the category,
and the non-empty static generic solution list for the category. -/
theorem c3_fallback_guarantee (e : Engine) (dt cat : String) (sym : Facts)
    (h : ∀ r ∈ getRulesByCategory e.kb cat (some dt),
      (matchConditions r (diagnoseWM dt sym)).score * fireConfidence r < 3/10) :
    (e.diagnose dt cat sym).2.success = false ∧
    (e.diagnose dt cat sym).2.ruleId = none ∧
    (e.diagnose dt cat sym).2.confidence = 1/2 ∧
    (e.diagnose dt cat sym).2.cause =
      "General " ++ pyReplaceChar cat '_' ' ' ++ " issue" ∧
    (e.diagnose dt cat sym).2.solutions = getGeneralSolutions cat dt ∧
    (e.diagnose dt cat sym).2.solutions ≠ [] := by
  have hnil : (((e.reset.addFact "device" (Value.str dt)).addFacts sym).forwardChain
      (some dt) (some cat) (3/10)).2 = [] := by
    apply forwardChain_diagnoses_nil
    intro r hr
    rw [setup_kb] at hr
    rw [setup_wm]
    exact not_le.mpr (h r hr)
  unfold Engine.diagnose
  rcases hfc : ((e.reset.addFact "device" (Value.str dt)).addFacts sym).forwardChain
      (some dt) (some cat) (3/10) with ⟨e4, ds⟩
  rw [hfc] at hnil
  simp only at hnil
  subst hnil
  simp only [hfc]
  exact ⟨trivial, trivial, trivial, trivial, trivial, getGeneralSolutions_ne_nil cat dt⟩

/-- C3 witness: the fallback at a concrete input (an empty catalog, so
nothing can fire). -/
theorem c3_witness :
    ((Engine.init (loadRules none none)).diagnose "computer" "overheating" []).2.success
      = false ∧
    ((Engine.init (loadRules none none)).diagnose "computer" "overheating" []).2.ruleId
      = none ∧
    ((Engine.init (loadRules none none)).diagnose "computer" "overheating" []).2.confidence
      = 1/2 ∧
    ((Engine.init (loadRules none none)).diagnose "computer" "overheating" []).2.cause
      = "General " ++ pyReplaceChar "overheating" '_' ' ' ++ " issue" ∧
    ((Engine.init (loadRules none none)).diagnose "computer" "overheating" []).2.solutions
      = getGeneralSolutions "overheating" "computer" ∧
    ((Engine.init (loadRules none none)).diagnose "computer" "overheating" []).2.solutions
      ≠ [] :=
  c3_fallback_guarantee (Engine.init (loadRules none none)) "computer" "overheating" []
    (by decide)

theorem forwardChain_snd (e : Engine) (dt cat : Option String) (θ : ℚ) :
    (e.forwardChain dt cat θ).2 =
      ((findMatchingRules e.kb e.workingMemory dt cat θ).filter (firesAt θ)).map
        (mkDiagnosis e.workingMemory) := rfl

/-- C2: a diagnosis appears in the forward-chaining result (at the
threshold 0.3 that `diagnose` passes, scoped by device type and
category) exactly for the scoped rules whose match score is at least
0.3 and whose combined confidence (match score times rule confidence)
is also at least 0.3; the diagnosis built for such a rule carries the
product as its confidence, via `mkDiagnosis`. -/
theorem c2_forward_chain_two_stage_filter (e : Engine) (dt cat : String) (d : Diagnosis) :
    d ∈ (e.forwardChain (some dt) (some cat) (3/10)).2 ↔
      ∃ r ∈ getRulesByCategory e.kb cat (some dt),
        (3/10 : ℚ) ≤ (matchConditions r e.workingMemory).score ∧
        (3/10 : ℚ) ≤ (matchConditions r e.workingMemory).score * fireConfidence r ∧
        d = mkDiagnosis e.workingMemory (toMatchEntry e.workingMemory r) := by
  rw [forwardChain_snd]
  simp only [List.mem_map, List.mem_filter, findMatchingRules, List.mem_insertionSort,
    preMatches, candidateRules, decide_eq_true_eq, firesAt]
  constructor
  · rintro ⟨m, ⟨⟨⟨r, hr, rfl⟩, hθ⟩, hfire⟩, rfl⟩
    exact ⟨r, hr, hθ, hfire, rfl⟩
  · rintro ⟨r, hr, hθ, hfire, rfl⟩
    exact ⟨toMatchEntry e.workingMemory r, ⟨⟨⟨r, hr, rfl⟩, hθ⟩, hfire⟩, rfl⟩

/-- C5: the ranked list is sorted by match score descending with ties
broken by higher authored confidence (`rankRel` is exactly that
lexicographic key order), and entries equal in both score and
confidence keep their pre-sort catalog order: filtering the output by
any fixed (score, confidence) key gives the pre-sort sublist
unchanged. -/
theorem c5_ranking_sorted_and_stable (kb : KnowledgeBase) (sym : Facts)
    (dt cat : Option String) (θ : ℚ) :
    List.Pairwise rankRel (findMatchingRules kb sym dt cat θ) ∧
    ∀ s c : ℚ,
      (findMatchingRules kb sym dt cat θ).filter
          (fun m => decide (m.matchScore = s ∧ m.rule.confidence.getD 0 = c)) =
        (preMatches kb sym dt cat θ).filter
          (fun m => decide (m.matchScore = s ∧ m.rule.confidence.getD 0 = c)) := by
  constructor
  · exact List.sorted_insertionSort rankRel _
  · intro s c
    set P : MatchEntry → Bool :=
      fun m => decide (m.matchScore = s ∧ m.rule.confidence.getD 0 = c) with hP
    set pre := preMatches kb sym dt cat θ with hpre
    show (List.insertionSort rankRel pre).filter P = pre.filter P
    have hPal : ∀ x y : MatchEntry, P x = true → P y = true → rankRel x y := by
      intro x y hx hy
      rw [hP] at hx hy
      simp only [decide_eq_true_eq] at hx hy
      exact Or.inr ⟨hy.1.trans hx.1.symm, le_of_eq (hy.2.trans hx.2.symm)⟩
    have hsub : List.Sublist (pre.filter P) (List.insertionSort rankRel pre) := by
      apply List.sublist_insertionSort
      · exact List.pairwise_of_forall_mem_list
          (fun a ha b hb => hPal a b (List.of_mem_filter ha) (List.of_mem_filter hb))
      · exact List.filter_sublist pre
    have hself : (pre.filter P).filter P = pre.filter P :=
      List.filter_eq_self.mpr (fun a ha => List.of_mem_filter ha)
    have hsub2 : List.Sublist (pre.filter P) ((List.insertionSort rankRel pre).filter P) := by
      have := hsub.filter P
      rwa [hself] at this
    have hperm : List.Perm ((List.insertionSort rankRel pre).filter P) (pre.filter P) :=
      (List.perm_insertionSort rankRel pre).filter P
    exact (hsub2.eq_of_length hperm.length_eq.symm).symm

/-! ## Backward chaining lemmas -/

theorem bcLoop_true_iff (wm : Facts) (l : List Rule) :
    ∀ acc, (bcLoop wm l acc).2.1 = true ↔ ∃ r ∈ l, ruleSatisfied wm r = true := by
  induction l with
  | nil => intro acc; simp [bcLoop]
  | cons r0 rest ih =>
    intro acc
    by_cases h0 : (requiredFactsFor wm r0).isEmpty = true
    · simp only [bcLoop, h0, if_true]
      constructor
      · intro
        exact ⟨r0, List.mem_cons_self r0 rest, by rwa [ruleSatisfied]⟩
      · intro _
        trivial
    · simp only [bcLoop, h0, if_false, Bool.false_eq_true]
      rw [ih (requiredFactsFor wm r0)]
      constructor
      · rintro ⟨r, hr, hs⟩
        exact ⟨r, List.mem_cons_of_mem r0 hr, hs⟩
      · rintro ⟨r, hr, hs⟩
        rcases List.mem_cons.mp hr with rfl | hr
        · rw [ruleSatisfied] at hs
          exact absurd hs h0
        · exact ⟨r, hr, hs⟩

theorem bcLoop_all_unsat (wm : Facts) (l : List Rule)
    (h : ∀ r ∈ l, ruleSatisfied wm r = false) :
    ∀ acc, (bcLoop wm l acc).2 =
      (false, match l.getLast? with
        | some rl => requiredFactsFor wm rl
        | none => acc) := by
  induction l with
  | nil => intro acc; simp [bcLoop]
  | cons r0 rest ih =>
    intro acc
    have h0 : (requiredFactsFor wm r0).isEmpty = false := by
      have := h r0 (List.mem_cons_self r0 rest)
      rwa [ruleSatisfied] at this
    simp only [bcLoop, h0, if_false, Bool.false_eq_true]
    cases rest with
    | nil => simp [bcLoop]
    | cons r1 rest1 =>
      rw [ih (fun r hr => h r (List.mem_cons_of_mem r0 hr)) (requiredFactsFor wm r0)]
      rw [List.getLast?_cons_cons]
      rcases hl : (r1 :: rest1).getLast? with _ | rl
      · simp at hl
      · simp

theorem bcLoop_first_proven (wm : Facts) (l : List Rule) (r : Rule)
    (h : l.find? (fun r => ruleSatisfied wm r) = some r) :
    ∀ acc,
      (bcLoop wm l acc).1 =
        (l.takeWhile (fun r => !ruleSatisfied wm r)).map (bcNeedsMsg wm) ++
          [bcProvenMsg r] ∧
      (bcLoop wm l acc).2 = (true, []) := by
  induction l with
  | nil => simp [List.find?] at h
  | cons r0 rest ih =>
    intro acc
    by_cases h0 : ruleSatisfied wm r0 = true
    · have hr0 : r0 = r := by
        rw [List.find?_cons_of_pos _ h0] at h
        exact Option.some.inj h
      have he : (requiredFactsFor wm r0).isEmpty = true := by
        rwa [ruleSatisfied] at h0
      subst hr0
      simp only [bcLoop, he, if_true]
      refine ⟨?_, trivial⟩
      rw [List.takeWhile_cons]
      simp [h0]
    · have hsat : ruleSatisfied wm r0 = false := by
        simpa using h0
      have he : (requiredFactsFor wm r0).isEmpty = false := by
        rwa [ruleSatisfied] at hsat
      rw [List.find?_cons_of_neg _ h0] at h
      obtain ⟨h1, h2⟩ := ih h (requiredFactsFor wm r0)
      simp only [bcLoop, he, if_false, Bool.false_eq_true]
      refine ⟨?_, h2⟩
      rw [List.takeWhile_cons]
      simp [hsat, h1]

theorem backwardChain_snd (e : Engine) (hyp : String) (dt : Option String) :
    (e.backwardChain hyp dt).2 =
      if (supportingRules e.kb hyp dt).isEmpty then (false, [])
      else (bcLoop e.workingMemory (supportingRules e.kb hyp dt) []).2 := by
  unfold Engine.backwardChain
  split
  · rfl
  · rfl

theorem backwardChain_trace (e : Engine) (hyp : String) (dt : Option String) :
    (e.backwardChain hyp dt).1.inferenceTrace =
      if (supportingRules e.kb hyp dt).isEmpty then
        e.inferenceTrace ++ ["Starting Backward Chaining for hypothesis: " ++ hyp] ++
          ["No rules found that support hypothesis: " ++ hyp]
      else
        e.inferenceTrace ++ ["Starting Backward Chaining for hypothesis: " ++ hyp] ++
          (bcLoop e.workingMemory (supportingRules e.kb hyp dt) []).1 := by
  unfold Engine.backwardChain
  split
  · rfl
  · rfl

/-- C6: backward chaining returns (proven, no required facts) exactly
when some supporting rule (cause text containing the hypothesis,
case-insensitively) has all its conditions satisfied by working memory,
and it stops at the first such rule (the trace records the unsatisfied
rules before it and then the proof by that first rule); with no
supporting rule it returns (false, []); with supporting rules but none
satisfied it returns false with the required-facts list of the last
examined rule only. -/
theorem c6_backward_chain_cases (e : Engine) (hyp : String) (dt : Option String) :
    ((e.backwardChain hyp dt).2.1 = true ↔
      ∃ r ∈ supportingRules e.kb hyp dt, ruleSatisfied e.workingMemory r = true) ∧
    ((e.backwardChain hyp dt).2.1 = true → (e.backwardChain hyp dt).2 = (true, [])) ∧
    (supportingRules e.kb hyp dt = [] → (e.backwardChain hyp dt).2 = (false, [])) ∧
    (∀ r, (supportingRules e.kb hyp dt).find?
        (fun r => ruleSatisfied e.workingMemory r) = some r →
      (e.backwardChain hyp dt).2 = (true, []) ∧
      (e.backwardChain hyp dt).1.inferenceTrace =
        e.inferenceTrace ++ ["Starting Backward Chaining for hypothesis: " ++ hyp] ++
          ((supportingRules e.kb hyp dt).takeWhile
              (fun r => !ruleSatisfied e.workingMemory r)).map
            (bcNeedsMsg e.workingMemory) ++
          [bcProvenMsg r]) ∧
    (supportingRules e.kb hyp dt ≠ [] →
      (∀ r ∈ supportingRules e.kb hyp dt, ruleSatisfied e.workingMemory r = false) →
      ∀ rl, (supportingRules e.kb hyp dt).getLast? = some rl →
        (e.backwardChain hyp dt).2 = (false, requiredFactsFor e.workingMemory rl)) := by
  by_cases hemp : (supportingRules e.kb hyp dt).isEmpty = true
  · have hnil : supportingRules e.kb hyp dt = [] := List.isEmpty_iff.mp hemp
    rw [backwardChain_snd, if_pos hemp]
    refine ⟨?_, ?_, ?_, ?_, ?_⟩
    · simp [hnil]
    · simp
    · intro _; rfl
    · intro r hr
      rw [hnil] at hr
      simp [List.find?] at hr
    · intro hne
      exact absurd hnil hne
  · have hne : supportingRules e.kb hyp dt ≠ [] := by
      simpa [List.isEmpty_iff] using hemp
    have hsnd := backwardChain_snd e hyp dt
    rw [if_neg hemp] at hsnd
    refine ⟨?_, ?_, ?_, ?_, ?_⟩
    · rw [hsnd]
      exact bcLoop_true_iff e.workingMemory (supportingRules e.kb hyp dt) []
    · intro htrue
      rw [hsnd] at htrue ⊢
      rcases hfind : (supportingRules e.kb hyp dt).find?
          (fun r => ruleSatisfied e.workingMemory r) with _ | r
      · exfalso
        rw [bcLoop_true_iff] at htrue
        obtain ⟨r, hr, hs⟩ := htrue
        have := List.find?_eq_none.mp hfind r hr
        exact this hs
      · exact (bcLoop_first_proven e.workingMemory _ r hfind []).2
    · intro h
      exact absurd h hne
    · intro r hfind
      obtain ⟨htr, hres⟩ := bcLoop_first_proven e.workingMemory _ r hfind []
      constructor
      · rw [hsnd]
        exact hres
      · rw [backwardChain_trace, if_neg hemp, htr, ← List.append_assoc]
    · intro _ hall rl hlast
      rw [hsnd, bcLoop_all_unsat e.workingMemory _ hall [], hlast]

/-- C10: a rule without a confidence field fires with the default 0.8
(`rule.get("confidence", 0.8)` in forward chaining), so its diagnosis
carries 0.8 times its match score and it clears the bar exactly when
that product does; but the ranker's sort key reads the missing
confidence as 0 (`rule.get("confidence", 0)`), so at equal match score
such an entry never precedes an entry whose authored confidence is
positive. -/
theorem c10_default_confidence_asymmetry (kb : KnowledgeBase) (sym : Facts)
    (dt cat : Option String) (θ : ℚ) (wm : Facts) :
    (∀ m : MatchEntry, m.rule.confidence = none →
      fireConfidence m.rule = 4/5 ∧
      (mkDiagnosis wm m).confidence = m.matchScore * (4/5) ∧
      (firesAt θ m = true ↔ θ ≤ m.matchScore * (4/5))) ∧
    (∀ (l₁ l₂ l₃ : List MatchEntry) (m₁ m₂ : MatchEntry),
      findMatchingRules kb sym dt cat θ = l₁ ++ m₁ :: l₂ ++ m₂ :: l₃ →
      m₁.matchScore = m₂.matchScore →
      m₁.rule.confidence = none →
      ∀ c : ℚ, m₂.rule.confidence = some c → 0 < c → False) := by
  constructor
  · intro m hm
    refine ⟨by rw [fireConfidence, hm]; rfl, ?_, ?_⟩
    · show m.matchScore * fireConfidence m.rule = m.matchScore * (4/5)
      rw [fireConfidence, hm]
      rfl
    · rw [firesAt, fireConfidence, hm]
      simp
  · intro l₁ l₂ l₃ m₁ m₂ heq hscore hconf1 c hconf2 hcpos
    have hp : List.Pairwise rankRel (findMatchingRules kb sym dt cat θ) :=
      List.sorted_insertionSort rankRel _
    rw [heq] at hp
    have hsub : List.Sublist [m₁, m₂] (l₁ ++ m₁ :: l₂ ++ m₂ :: l₃) := by
      rw [List.append_assoc]
      apply List.sublist_append_of_sublist_right
      rw [List.cons_append]
      apply List.Sublist.cons₂
      apply List.sublist_append_of_sublist_right
      exact List.Sublist.cons₂ m₂ (List.nil_sublist l₃)
    have hrel : rankRel m₁ m₂ := List.pairwise_pair.mp (hp.sublist hsub)
    rcases hrel with h | ⟨_, hle⟩
    · rw [hscore] at h
      exact lt_irrefl _ h
    · rw [hconf1, hconf2] at hle
      simp only [Option.getD_none, Option.getD_some] at hle
      exact absurd hcpos (not_lt.mpr hle)

end HybridTS
